import Mathlib

/-!
Shallow embedding of the OAuth capture-and-handoff core of the DayLight
repository (src/src-tauri/src/lib.rs).

Strings on the wire are modelled as lists of bytes (`List Nat`); the
`url::form_urlencoded` decoding used by `extract_code` is modelled at the
byte level (the final lossy UTF-8 conversion of the Rust `String` is not
modelled; all inputs of interest are ASCII, where the two agree).
-/

namespace DayLight

/-! ### Byte constants -/

/-- The byte of the character `?`. -/
def qmarkB : Nat := 63

/-- The byte of the character `&`. -/
def ampB : Nat := 38

/-- The byte of the character `=`. -/
def eqB : Nat := 61

/-- The byte of the character `%`. -/
def percentB : Nat := 37

/-- The byte of the character `+`. -/
def plusB : Nat := 43

/-- The byte of the space character. -/
def spaceB : Nat := 32

/-- The bytes of the string `code`. -/
def codeBytes : List Nat := [99, 111, 100, 101]

/-! ### `str::split` -/

/-- Model of Rust `str::split(sep)`: splits a byte string at every
occurrence of `sep`, keeping empty pieces.  Always returns at least one
piece. -/
def splitSep (sep : Nat) : List Nat → List (List Nat)
  | [] => [[]]
  | b :: rest =>
    if b = sep then [] :: splitSep sep rest
    else (b :: (splitSep sep rest).headI) :: (splitSep sep rest).tail

/-! ### `url::form_urlencoded` decoding -/

/-- Value of an ASCII hex digit, as in the `percent-encoding` crate. -/
def hexVal (b : Nat) : Option Nat :=
  if 48 ≤ b ∧ b ≤ 57 then some (b - 48)
  else if 65 ≤ b ∧ b ≤ 70 then some (b - 55)
  else if 97 ≤ b ∧ b ≤ 102 then some (b - 87)
  else none

/-- Model of `replace_plus` in `form_urlencoded`: every `+` byte becomes a space. -/
def replacePlus (l : List Nat) : List Nat :=
  l.map fun b => if b = plusB then spaceB else b

/-- Model of `percent_decode`: a `%` followed by two hex digits becomes the decoded
byte; a `%` not followed by two hex digits is kept literally and decoding
resumes right after the `%`. -/
def percentDecode : List Nat → List Nat
  | b :: h1 :: h2 :: rest =>
    if b = percentB then
      match hexVal h1, hexVal h2 with
      | some hi, some lo => (16 * hi + lo) :: percentDecode rest
      | _, _ => b :: percentDecode (h1 :: h2 :: rest)
    else b :: percentDecode (h1 :: h2 :: rest)
  | b :: rest => b :: percentDecode rest
  | [] => []

/-- Model of the `form_urlencoded` `decode`: replace `+` by space, then percent-decode. -/
def decode (l : List Nat) : List Nat :=
  percentDecode (replacePlus l)

/-- Model of `splitn(2, '=')` on a `name=value` sequence: the part before the first
`=` and the part after it (empty when there is no `=`). -/
def splitKV : List Nat → List Nat × List Nat
  | [] => ([], [])
  | b :: rest =>
    if b = eqB then ([], rest)
    else (b :: (splitKV rest).1, (splitKV rest).2)

/-- Model of `url::form_urlencoded::parse`: split the query on `&`, skip
empty sequences, split each remaining sequence at its first `=`, and decode
both name and value. -/
def parsePairs (q : List Nat) : List (List Nat × List Nat) :=
  (splitSep ampB q).filterMap fun seq =>
    if seq = [] then none
    else some (decode (splitKV seq).1, decode (splitKV seq).2)

/-- The `for (key, value) in ... if key == "code"` loop: first pair whose
decoded key is `code`, if any. -/
def findCode : List (List Nat × List Nat) → Option (List Nat)
  | [] => none
  | (k, v) :: rest => if k = codeBytes then some v else findCode rest

/-- Model of `extract_code` (src/src-tauri/src/lib.rs:15-23):
`url.split('?').nth(1)` selects the piece between the first and second `?`
(absent when there is no `?`), which is then parsed as a form-urlencoded
query and scanned for the first `code` parameter. -/
def extract_code (url : List Nat) : Option (List Nat) :=
  match splitSep qmarkB url with
  | _ :: query :: _ => findCode (parsePairs query)
  | _ => none

/-! ### Basic lemmas about `splitSep` -/

theorem splitSep_ne_nil (sep : Nat) (l : List Nat) : splitSep sep l ≠ [] := by
  cases l with
  | nil => simp [splitSep]
  | cons b rest =>
    simp only [splitSep]
    split <;> simp

theorem headI_cons_tail {α : Type} [Inhabited α] (l : List α) (h : l ≠ []) :
    l.headI :: l.tail = l := by
  cases l with
  | nil => exact absurd rfl h
  | cons a t => rfl

/-- Splitting `a ++ z` when the separator does not occur in `a`: the first
piece is `a` glued onto the first piece of `z`, the rest are the remaining
pieces of `z`. -/
theorem splitSep_append (sep : Nat) (a z : List Nat) (ha : sep ∉ a) :
    splitSep sep (a ++ z) =
      (a ++ (splitSep sep z).headI) :: (splitSep sep z).tail := by
  induction a with
  | nil =>
    simpa using (headI_cons_tail (splitSep sep z) (splitSep_ne_nil sep z)).symm
  | cons b a ih =>
    have hb : b ≠ sep := by
      intro h; exact ha (h ▸ List.mem_cons_self b a)
    have ha' : sep ∉ a := fun h => ha (List.mem_cons_of_mem b h)
    simp only [List.cons_append, splitSep, if_neg hb, List.append_eq]
    rw [ih ha']
    simp

/-- A string without the separator splits into itself. -/
theorem splitSep_of_not_mem {sep : Nat} {l : List Nat} (h : sep ∉ l) :
    splitSep sep l = [l] := by
  have := splitSep_append sep l [] h
  simpa [splitSep] using this

/-- A string starting with the separator yields a leading empty piece. -/
theorem splitSep_sep_cons (sep : Nat) (r : List Nat) :
    splitSep sep (sep :: r) = [] :: splitSep sep r := by
  simp [splitSep]

/-! ### Assembling query strings from parameter lists -/

/-- A raw (still encoded) query parameter whose serialisation round-trips
through the parser: no `&` or `?` anywhere, and no `=` in the name. -/
def wfPair (p : List Nat × List Nat) : Prop :=
  ampB ∉ p.1 ∧ eqB ∉ p.1 ∧ qmarkB ∉ p.1 ∧ ampB ∉ p.2 ∧ qmarkB ∉ p.2

instance (p : List Nat × List Nat) : Decidable (wfPair p) := by
  unfold wfPair; infer_instance

/-- Serialise raw parameters as `k1=v1&k2=v2&...`. -/
def queryOfPairs : List (List Nat × List Nat) → List Nat
  | [] => []
  | [p] => p.1 ++ eqB :: p.2
  | p :: ps => p.1 ++ eqB :: p.2 ++ ampB :: queryOfPairs ps

theorem splitKV_append {k : List Nat} (v : List Nat) (hk : eqB ∉ k) :
    splitKV (k ++ eqB :: v) = (k, v) := by
  induction k with
  | nil => simp [splitKV]
  | cons b k ih =>
    have hb : b ≠ eqB := by
      intro h; exact hk (h ▸ List.mem_cons_self b k)
    have hk' : eqB ∉ k := fun h => hk (List.mem_cons_of_mem b h)
    simp [splitKV, if_neg hb, ih hk']

theorem amp_not_mem_piece {p : List Nat × List Nat} (hp : wfPair p) :
    ampB ∉ p.1 ++ eqB :: p.2 := by
  intro h
  rcases List.mem_append.1 h with h1 | h1
  · exact hp.1 h1
  · rcases List.mem_cons.1 h1 with h2 | h2
    · exact absurd h2 (by decide)
    · exact hp.2.2.2.1 h2

theorem qmark_not_mem_queryOfPairs {ps : List (List Nat × List Nat)}
    (hps : ∀ p ∈ ps, wfPair p) : qmarkB ∉ queryOfPairs ps := by
  induction ps with
  | nil => simp [queryOfPairs]
  | cons p ps ih =>
    have hp := hps p (List.mem_cons_self p ps)
    have hps' : ∀ q ∈ ps, wfPair q := fun q hq => hps q (List.mem_cons_of_mem p hq)
    cases ps with
    | nil =>
      simp only [queryOfPairs]
      intro h
      rcases List.mem_append.1 h with h1 | h1
      · exact hp.2.2.1 h1
      · rcases List.mem_cons.1 h1 with h2 | h2
        · exact absurd h2 (by decide)
        · exact hp.2.2.2.2 h2
    | cons q qs =>
      simp only [queryOfPairs]
      intro h
      rcases List.mem_append.1 h with h1 | h1
      · rcases List.mem_append.1 h1 with h2 | h2
        · exact hp.2.2.1 h2
        · rcases List.mem_cons.1 h2 with h3 | h3
          · exact absurd h3 (by decide)
          · exact hp.2.2.2.2 h3
      · rcases List.mem_cons.1 h1 with h2 | h2
        · exact absurd h2 (by decide)
        · exact (ih hps') h2

/-- Parsing inverts serialisation, decoding each name and value. -/
theorem parsePairs_queryOfPairs {ps : List (List Nat × List Nat)}
    (hps : ∀ p ∈ ps, wfPair p) :
    parsePairs (queryOfPairs ps) = ps.map fun p => (decode p.1, decode p.2) := by
  induction ps with
  | nil => simp [queryOfPairs, parsePairs, splitSep]
  | cons p ps ih =>
    have hp := hps p (List.mem_cons_self p ps)
    have hps' : ∀ q ∈ ps, wfPair q := fun q hq => hps q (List.mem_cons_of_mem p hq)
    have hne : p.1 ++ eqB :: p.2 ≠ [] := by simp
    cases ps with
    | nil =>
      simp only [queryOfPairs, parsePairs]
      rw [splitSep_of_not_mem (amp_not_mem_piece hp)]
      simp [hne, splitKV_append p.2 hp.2.1]
    | cons q qs =>
      simp only [queryOfPairs, parsePairs]
      rw [splitSep_append ampB _ _ (amp_not_mem_piece hp), splitSep_sep_cons]
      simp only [List.headI, List.tail, List.append_nil, List.filterMap_cons]
      rw [if_neg hne, splitKV_append p.2 hp.2.1]
      have := ih hps'
      simp only [parsePairs] at this
      simp [this]

/-- Running `findCode` over decoded pairs is a `find?` on the decoded key. -/
theorem findCode_map (ps : List (List Nat × List Nat)) :
    findCode (ps.map fun p => (decode p.1, decode p.2))
      = (ps.find? fun p => decode p.1 == codeBytes).map fun p => decode p.2 := by
  induction ps with
  | nil => simp [findCode]
  | cons p ps ih =>
    by_cases h : decode p.1 = codeBytes
    · rw [List.map_cons, List.find?_cons_of_pos _ (by simpa using h)]
      simp [findCode, if_pos h]
    · rw [List.map_cons, List.find?_cons_of_neg _ (by simpa using h)]
      simpa [findCode, if_neg h] using ih

/-- Central helper: `extract_code` on `path?query` with a well-formed
serialised parameter list returns the decoded value of the first parameter
whose decoded name is `code`, and `none` when there is none. -/
theorem extract_code_pairs (path : List Nat) (ps : List (List Nat × List Nat))
    (hpath : qmarkB ∉ path) (hps : ∀ p ∈ ps, wfPair p) :
    extract_code (path ++ qmarkB :: queryOfPairs ps)
      = (ps.find? fun p => decode p.1 == codeBytes).map fun p => decode p.2 := by
  have hq : qmarkB ∉ queryOfPairs ps := qmark_not_mem_queryOfPairs hps
  rw [extract_code, splitSep_append qmarkB path _ hpath, splitSep_sep_cons,
    splitSep_of_not_mem hq]
  simp only [List.headI, List.tail, List.append_nil]
  rw [parsePairs_queryOfPairs hps, findCode_map]

/-- A URL without `?` yields no code. -/
theorem extract_code_no_query {url : List Nat} (h : qmarkB ∉ url) :
    extract_code url = none := by
  rw [extract_code, splitSep_of_not_mem h]

/-! ### Addresses and `listen_addr_port` -/

/-- Model of `std::net::SocketAddr`: an IPv4 or IPv6 address with a port. -/
inductive SocketAddr
  | v4 (a b c d : Nat) (port : Nat)
  | v6 (segments : List Nat) (port : Nat)
deriving DecidableEq

/-- Model of `SocketAddr::port()`. -/
def SocketAddr.port : SocketAddr → Nat
  | .v4 _ _ _ _ p => p
  | .v6 _ p => p

/-- Model of `tiny_http::ListenAddr`: either an IP socket address or a unix-domain
socket path. -/
inductive ListenAddr
  | IP (addr : SocketAddr)
  | Unix (path : List Nat)
deriving DecidableEq

/-- Model of `listen_addr_port` (src/src-tauri/src/lib.rs:25-30). -/
def listen_addr_port : ListenAddr → Except String Nat
  | .IP address => .ok address.port
  | .Unix _ => .error "Unsupported listener address"

/-! ### Listener registry state machine

The `OAuthListenerState` managed by the Tauri app holds
`receiver: Mutex<Option<oneshot::Receiver<String>>>`.  The receiver carries
no inspectable data in this model (`Unit`); what the channel eventually
yields is an external input of `await_oauth_code`.  `poisoned` models a
mutex whose `lock()` fails. -/

structure OAuthListenerState where
  poisoned : Bool
  receiver : Option Unit
deriving DecidableEq

/-- External environment of one `start` call: the result of
`Server::http("127.0.0.1:0")`, i.e. a bind error message or the address the
OS bound. -/
structure StartEnv where
  bind : Except String ListenAddr

/-- Model of `start_oauth_listener` (src/src-tauri/src/lib.rs:100-127):
lock, reject when the slot is full, bind, resolve the port, store the fresh
receiver, spawn the accept loop, return the port. -/
def start_oauth_listener (st : OAuthListenerState) (env : StartEnv) :
    OAuthListenerState × Except String Nat :=
  if st.poisoned then (st, .error "Lock poisoned")
  else
    match st.receiver with
    | some _ => (st, .error "OAuth listener already running")
    | none =>
      match env.bind with
      | .error e => (st, .error e)
      | .ok addr =>
        match listen_addr_port addr with
        | .error e => (st, .error e)
        | .ok port => ({ st with receiver := some () }, .ok port)

/-- External outcome of the `timeout(duration, rx).await` race in
`await_oauth_code`: `.error` is an elapsed timeout, `.ok (.error _)` a
receive error (sender dropped without sending), `.ok (.ok code)` a
delivered code. -/
abbrev RaceResult := Except Unit (Except Unit String)

/-- Model of `await_oauth_code` (src/src-tauri/src/lib.rs:129-145): lock,
take the receiver out of the slot (rejecting when it is empty), release the
lock, then race the channel against the timeout. -/
def await_oauth_code (st : OAuthListenerState) (race : RaceResult) :
    OAuthListenerState × Except String String :=
  if st.poisoned then (st, .error "Lock poisoned")
  else
    match st.receiver with
    | none => (st, .error "OAuth listener not started")
    | some _ =>
      ({ st with receiver := none },
        match race with
        | .ok (.ok code) => .ok code
        | .ok (.error _) => .error "OAuth listener closed"
        | .error _ => .error "OAuth listener timed out")

/-- One front-end command against the registry. -/
inductive Op
  | start (env : StartEnv)
  | await (race : RaceResult)

/-- State transition of one command (its returned value dropped). -/
def stepState (st : OAuthListenerState) : Op → OAuthListenerState
  | .start env => (start_oauth_listener st env).1
  | .await race => (await_oauth_code st race).1

/-- Run a sequence of commands. -/
def run (st : OAuthListenerState) (ops : List Op) : OAuthListenerState :=
  ops.foldl stepState st

/-! ### Capture Server accept loop -/

/-- Fixed response body when a code was extracted. -/
def completeBody : String := "Authorization complete. You may close this window."

/-- Fixed response body when no code was extracted. -/
def waitingBody : String := "Waiting for authorization. You may close this window."

/-- Model of the background thread of `start_oauth_listener`
(src/src-tauri/src/lib.rs:111-124): the incoming requests are modelled by
their URLs; the result is the list of response bodies written, in order,
and the code sent over the one-shot channel, if any.  The loop stops at the
first request that yields a code. -/
def serverLoop : List (List Nat) → List String × Option (List Nat)
  | [] => ([], none)
  | url :: rest =>
    match extract_code url with
    | some code => ([completeBody], some code)
    | none => (waitingBody :: (serverLoop rest).1, (serverLoop rest).2)

/-! ### Lock-scope traces

The order of the lock, slot, network and channel operations in the bodies
of the two commands, read off the source.  In `start_oauth_listener` the
`MutexGuard` is bound at the top of the function and is dropped only when
the function returns, after the thread spawn; in `await_oauth_code` the
guard lives in an inner block that ends before the timeout race. -/

inductive Event
  | lockAcquire | lockRelease | slotCheck | slotSet | slotTake
  | bindSocket | acceptConn | chanCreate | chanTimeoutWait | threadSpawn
deriving DecidableEq

/-- Event order of `start_oauth_listener` (src/src-tauri/src/lib.rs:100-127). -/
def startEvents : List Event :=
  [.lockAcquire, .slotCheck, .bindSocket, .chanCreate, .slotSet,
    .threadSpawn, .lockRelease]

/-- Event order of `await_oauth_code` (src/src-tauri/src/lib.rs:129-145). -/
def awaitEvents : List Event :=
  [.lockAcquire, .slotTake, .lockRelease, .chanTimeoutWait]

/-- The events of a trace that happen while the lock is held. -/
def eventsUnderLock : List Event → Bool → List Event
  | [], _ => []
  | e :: rest, held =>
    match e with
    | .lockAcquire => eventsUnderLock rest true
    | .lockRelease => eventsUnderLock rest false
    | _ => if held then e :: eventsUnderLock rest held else eventsUnderLock rest held

/-- Network I/O and waiting: binding the socket, accepting a connection,
awaiting the channel/timeout race. -/
def ioOrWaitEvents : List Event := [.bindSocket, .acceptConn, .chanTimeoutWait]

/-- The lock is never held across network I/O or the timeout wait. -/
def lockAvoidsNetwork (tr : List Event) : Prop :=
  ∀ e ∈ eventsUnderLock tr false, e ∉ ioOrWaitEvents

instance (tr : List Event) : Decidable (lockAvoidsNetwork tr) := by
  unfold lockAvoidsNetwork; infer_instance

/-! ### Further helper lemmas -/

/-- Splicing a query after the first `?`: `extract_code` parses the piece
of `z` up to the next `?`. -/
theorem extract_code_append (a z : List Nat) (ha : qmarkB ∉ a) :
    extract_code (a ++ qmarkB :: z)
      = findCode (parsePairs ((splitSep qmarkB z).headI)) := by
  rw [extract_code, splitSep_append qmarkB a _ ha, splitSep_sep_cons]
  simp only [List.headI, List.tail]
  rcases hz : splitSep qmarkB z with _ | ⟨q, t⟩
  · exact absurd hz (splitSep_ne_nil qmarkB z)
  · rfl

theorem find?_append_of_none {p : List Nat × List Nat → Bool}
    {l1 : List (List Nat × List Nat)} (l2 : List (List Nat × List Nat))
    (h : ∀ x ∈ l1, p x = false) :
    List.find? p (l1 ++ l2) = List.find? p l2 := by
  induction l1 with
  | nil => rfl
  | cons x l1 ih =>
    rw [List.cons_append,
      List.find?_cons_of_neg _ (by simp [h x (List.mem_cons_self x l1)])]
    exact ih fun y hy => h y (List.mem_cons_of_mem x hy)

/-! ### The claims -/

/-- Claim C1: for every URL string, `extract_code` returns the URL-decoded
value of the first `code` query parameter when one is present in the query
string, regardless of its position among other parameters and decoding both
percent-encoding and plus-encoding, and returns `none` (not an empty
string) when no `code` parameter is present at all — in particular for any
URL with no query string. -/
theorem claim_c1_extract_code :
    (∀ path ps, qmarkB ∉ path → (∀ p ∈ ps, wfPair p) →
      extract_code (path ++ qmarkB :: queryOfPairs ps)
        = (ps.find? fun p => decode p.1 == codeBytes).map fun p => decode p.2)
    ∧ (∀ url, qmarkB ∉ url → extract_code url = none) :=
  ⟨extract_code_pairs, fun _ h => extract_code_no_query h⟩

/-- Witness for C1: on `cb?other=y&code=abc%2Bdef` the extractor returns
the decoded `abc+def`; on the query-less `home` it returns `none`. -/
theorem claim_c1_extract_code_witness :
    extract_code ([99, 98] ++ qmarkB :: queryOfPairs
        [([111, 116, 104, 101, 114], [121]),
          (codeBytes, [97, 98, 99, 37, 50, 66, 100, 101, 102])])
      = some [97, 98, 99, 43, 100, 101, 102]
    ∧ extract_code [104, 111, 109, 101] = none := by
  constructor
  · rw [claim_c1_extract_code.1 _ _ (by decide) (by decide)]
    decide
  · exact claim_c1_extract_code.2 _ (by decide)

/-- Claim C9: with more than one `?` in the URL, only the substring between
the first and the second `?` is treated as the query string, so the URL
yields exactly what that substring yields — and nothing at all when no
`code` parameter occurs there, even if one occurs after the second `?`. -/
theorem claim_c9_second_qmark :
    ∀ a b c, qmarkB ∉ a → qmarkB ∉ b →
      (extract_code (a ++ qmarkB :: b ++ qmarkB :: c)
          = extract_code (a ++ qmarkB :: b)
        ∧ (findCode (parsePairs b) = none →
            extract_code (a ++ qmarkB :: b ++ qmarkB :: c) = none)) := by
  intro a b c ha hb
  have h1 : (a ++ qmarkB :: b) ++ qmarkB :: c
      = a ++ qmarkB :: (b ++ qmarkB :: c) := by simp
  have h2 : extract_code (a ++ qmarkB :: b ++ qmarkB :: c)
      = extract_code (a ++ qmarkB :: b) := by
    rw [h1, extract_code_append a _ ha, extract_code_append a b ha,
      splitSep_append qmarkB b _ hb, splitSep_sep_cons,
      splitSep_of_not_mem hb]
    simp
  exact ⟨h2, fun h => by rw [h2, extract_code_append a b ha,
    splitSep_of_not_mem hb]; simpa using h⟩

/-- Witness for C9: `p?x=1?code=z` yields `none`, like `p?x=1`. -/
theorem claim_c9_second_qmark_witness :
    extract_code ([112] ++ qmarkB :: [120, 61, 49] ++ qmarkB ::
        [99, 111, 100, 101, 61, 122])
      = extract_code ([112] ++ qmarkB :: [120, 61, 49])
    ∧ extract_code ([112] ++ qmarkB :: [120, 61, 49] ++ qmarkB ::
        [99, 111, 100, 101, 61, 122]) = none := by
  have h := claim_c9_second_qmark [112] [120, 61, 49]
    [99, 111, 100, 101, 61, 122] (by decide) (by decide)
  exact ⟨h.1, h.2 (by decide)⟩

/-- Claim C10: a `code` parameter that is present with an empty value is
reported as `some` of the empty string, not as absence — for any position
of the parameter after possibly many non-`code` parameters, and any
trailing parameters. -/
theorem claim_c10_empty_code :
    ∀ path ps1 ps2, qmarkB ∉ path →
      (∀ p ∈ ps1, wfPair p) → (∀ p ∈ ps2, wfPair p) →
      (∀ p ∈ ps1, decode p.1 ≠ codeBytes) →
      extract_code
          (path ++ qmarkB :: queryOfPairs (ps1 ++ (codeBytes, []) :: ps2))
        = some [] := by
  intro path ps1 ps2 hpath h1 h2 hnone
  have hwf : ∀ p ∈ ps1 ++ (codeBytes, ([] : List Nat)) :: ps2, wfPair p := by
    intro p hp
    rcases List.mem_append.1 hp with h | h
    · exact h1 p h
    · rcases List.mem_cons.1 h with h | h
      · subst h; decide
      · exact h2 p h
  rw [extract_code_pairs path _ hpath hwf,
    find?_append_of_none _ fun p hp => by
      simpa using hnone p hp]
  rw [List.find?_cons_of_pos _ (by decide)]
  decide

/-- Witness for C10: `?x=1&code=` yields `some` of the empty string. -/
theorem claim_c10_empty_code_witness :
    extract_code ([] ++ qmarkB :: queryOfPairs
        [([120], [49]), (codeBytes, [])])
      = some [] :=
  claim_c10_empty_code [] [([120], [49])] [] (by decide) (by decide)
    (by decide) (by decide)

/-- Claim C2: once the receiver has been taken, `await_oauth_code` has
exactly three outcomes, determined by the channel/timeout race: a delivered
value is returned as the code, a closed channel fails with the
listener-closed error, and an elapsed timeout fails with the timed-out
error. -/
theorem claim_c2_await_outcomes :
    ∀ st race, st.poisoned = false → st.receiver = some () →
      ((∀ code, race = .ok (.ok code) →
          (await_oauth_code st race).2 = .ok code)
        ∧ (∀ e, race = .ok (.error e) →
          (await_oauth_code st race).2 = .error "OAuth listener closed")
        ∧ (∀ e, race = .error e →
          (await_oauth_code st race).2 = .error "OAuth listener timed out")) := by
  intro st race hp hr
  refine ⟨?_, ?_, ?_⟩ <;> intro x hx <;> subst hx <;>
    simp [await_oauth_code, hp, hr]

/-- Witness for C2: the three outcomes at a concrete taken receiver. -/
theorem claim_c2_await_outcomes_witness :
    (await_oauth_code ⟨false, some ()⟩ (.ok (.ok "abc"))).2 = .ok "abc"
    ∧ (await_oauth_code ⟨false, some ()⟩ (.ok (.error ()))).2
        = .error "OAuth listener closed"
    ∧ (await_oauth_code ⟨false, some ()⟩ (.error ())).2
        = .error "OAuth listener timed out" :=
  ⟨(claim_c2_await_outcomes ⟨false, some ()⟩ _ rfl rfl).1 "abc" rfl,
    (claim_c2_await_outcomes ⟨false, some ()⟩ _ rfl rfl).2.1 () rfl,
    (claim_c2_await_outcomes ⟨false, some ()⟩ _ rfl rfl).2.2 () rfl⟩

/-- Claim C3: `start_oauth_listener` on a non-empty slot fails with the
already-running error and leaves the state unchanged; in particular, after
a successful start, a second start without an intervening await fails with
the already-running error. -/
theorem claim_c3_start_already_running :
    (∀ st env, st.poisoned = false → st.receiver = some () →
      start_oauth_listener st env
        = (st, .error "OAuth listener already running"))
    ∧ (∀ st env env2 port, st.poisoned = false →
      (start_oauth_listener st env).2 = .ok port →
      (start_oauth_listener (start_oauth_listener st env).1 env2).2
        = .error "OAuth listener already running") := by
  constructor
  · intro st env hp hr
    simp [start_oauth_listener, hp, hr]
  · intro st env env2 port hp hok
    rcases st with ⟨pois, recv⟩
    simp only at hp
    subst hp
    cases recv with
    | some u => simp [start_oauth_listener] at hok
    | none =>
      cases henv : env.bind with
      | error e => simp [start_oauth_listener, henv] at hok
      | ok addr =>
        cases addr with
        | IP a => simp [start_oauth_listener, henv, listen_addr_port]
        | Unix p => simp [start_oauth_listener, henv, listen_addr_port] at hok

/-- Witness for C3: a successful start from the empty slot followed by a
second start yields the already-running error. -/
theorem claim_c3_start_already_running_witness :
    (start_oauth_listener
        (start_oauth_listener ⟨false, none⟩
          ⟨.ok (.IP (.v4 127 0 0 1 4242))⟩).1
        ⟨.ok (.IP (.v4 127 0 0 1 5353))⟩).2
      = .error "OAuth listener already running"
    ∧ start_oauth_listener ⟨false, some ()⟩ ⟨.ok (.IP (.v4 127 0 0 1 4242))⟩
      = (⟨false, some ()⟩, .error "OAuth listener already running") :=
  ⟨claim_c3_start_already_running.2 ⟨false, none⟩ _ _ 4242 rfl rfl,
    claim_c3_start_already_running.1 ⟨false, some ()⟩ _ rfl rfl⟩

/-- Claim C4: `await_oauth_code` on an empty slot fails with the
not-started error and leaves the state unchanged; the receiver is removed
when taken, so after one successful start the second of two awaits fails
with the not-started error. -/
theorem claim_c4_await_not_started :
    (∀ st race, st.poisoned = false → st.receiver = none →
      await_oauth_code st race = (st, .error "OAuth listener not started"))
    ∧ (∀ st env port race race2, st.poisoned = false →
      (start_oauth_listener st env).2 = .ok port →
      (await_oauth_code
          (await_oauth_code (start_oauth_listener st env).1 race).1
          race2).2
        = .error "OAuth listener not started") := by
  constructor
  · intro st race hp hr
    simp [await_oauth_code, hp, hr]
  · intro st env port race race2 hp hok
    rcases st with ⟨pois, recv⟩
    simp only at hp
    subst hp
    cases recv with
    | some u => simp [start_oauth_listener] at hok
    | none =>
      cases henv : env.bind with
      | error e => simp [start_oauth_listener, henv] at hok
      | ok addr =>
        cases addr with
        | IP a => simp [start_oauth_listener, await_oauth_code, henv,
            listen_addr_port]
        | Unix p => simp [start_oauth_listener, henv, listen_addr_port] at hok

/-- Witness for C4: await with no prior start fails with the not-started
error, and so does a second await after a single start. -/
theorem claim_c4_await_not_started_witness :
    await_oauth_code ⟨false, none⟩ (.error ())
      = (⟨false, none⟩, .error "OAuth listener not started")
    ∧ (await_oauth_code
        (await_oauth_code
          (start_oauth_listener ⟨false, none⟩
            ⟨.ok (.IP (.v4 127 0 0 1 4242))⟩).1
          (.ok (.ok "abc"))).1
        (.ok (.ok "def"))).2
      = .error "OAuth listener not started" :=
  ⟨claim_c4_await_not_started.1 ⟨false, none⟩ _ rfl rfl,
    claim_c4_await_not_started.2 ⟨false, none⟩ _ 4242 _ _ rfl rfl⟩

/-- Claim C5: the slot invariant. Starting while the slot is non-empty is
rejected without changing it; awaiting while it is empty is rejected
without changing it; every await leaves the slot empty whatever the race
outcome; the slot is non-empty after a start only if it already was or the
start succeeded from an empty slot; and a run containing no start commands
keeps the slot empty. -/
theorem claim_c5_slot_invariant :
    (∀ st env, st.poisoned = false → st.receiver = some () →
      start_oauth_listener st env
        = (st, .error "OAuth listener already running"))
    ∧ (∀ st race, st.poisoned = false → st.receiver = none →
      await_oauth_code st race = (st, .error "OAuth listener not started"))
    ∧ (∀ st race, st.poisoned = false →
      ((await_oauth_code st race).1).receiver = none)
    ∧ (∀ st env, st.poisoned = false →
      ((start_oauth_listener st env).1).receiver = some () →
      (st.receiver = some () ∨
        (st.receiver = none
          ∧ ∃ port, (start_oauth_listener st env).2 = .ok port)))
    ∧ (∀ ops, (∀ env, Op.start env ∉ ops) →
      (run ⟨false, none⟩ ops).receiver = none) := by
  refine ⟨?_, ?_, ?_, ?_, ?_⟩
  · intro st env hp hr
    simp [start_oauth_listener, hp, hr]
  · intro st race hp hr
    simp [await_oauth_code, hp, hr]
  · intro st race hp
    cases hr : st.receiver with
    | none => simp [await_oauth_code, hp, hr]
    | some u => simp [await_oauth_code, hp, hr]
  · intro st env hp hsome
    cases hr : st.receiver with
    | some u => exact Or.inl rfl
    | none =>
      refine Or.inr ⟨rfl, ?_⟩
      cases henv : env.bind with
      | error e => simp [start_oauth_listener, hp, hr, henv] at hsome
      | ok addr =>
        cases addr with
        | IP a =>
          exact ⟨a.port, by simp [start_oauth_listener, hp, hr, henv,
            listen_addr_port]⟩
        | Unix p =>
          simp [start_oauth_listener, hp, hr, henv, listen_addr_port] at hsome
  · intro ops
    induction ops with
    | nil => intro _; rfl
    | cons op ops ih =>
      intro h
      cases op with
      | start env => exact absurd (List.mem_cons_self _ _) (h env)
      | await race =>
        have h2 : ∀ env, Op.start env ∉ ops := fun env hm =>
          h env (List.mem_cons_of_mem _ hm)
        exact ih h2

/-- Witness for C5: the five clauses at concrete states, environments and
command sequences. -/
theorem claim_c5_slot_invariant_witness :
    start_oauth_listener ⟨false, some ()⟩ ⟨.ok (.IP (.v4 127 0 0 1 4242))⟩
      = (⟨false, some ()⟩, .error "OAuth listener already running")
    ∧ await_oauth_code ⟨false, none⟩ (.ok (.ok "abc"))
      = (⟨false, none⟩, .error "OAuth listener not started")
    ∧ ((await_oauth_code ⟨false, some ()⟩ (.error ())).1).receiver = none
    ∧ ((⟨false, none⟩ : OAuthListenerState).receiver = some ()
        ∨ ((⟨false, none⟩ : OAuthListenerState).receiver = none
          ∧ ∃ port, (start_oauth_listener ⟨false, none⟩
              ⟨.ok (.IP (.v4 127 0 0 1 4242))⟩).2 = .ok port))
    ∧ (run ⟨false, none⟩ [.await (.error ())]).receiver = none :=
  ⟨claim_c5_slot_invariant.1 ⟨false, some ()⟩ _ rfl rfl,
    claim_c5_slot_invariant.2.1 ⟨false, none⟩ _ rfl rfl,
    claim_c5_slot_invariant.2.2.1 ⟨false, some ()⟩ _ rfl,
    claim_c5_slot_invariant.2.2.2.1 ⟨false, none⟩ _ rfl rfl,
    claim_c5_slot_invariant.2.2.2.2 _
      (by intro env h; exact Op.noConfusion (List.mem_singleton.1 h))⟩

/-- Claim C6: `listen_addr_port` maps every IPv4/IPv6 socket address to its
numeric port and every non-IP listener address to the unsupported-address
error; `start_oauth_listener` propagates a bind failure verbatim, returns
the OS-assigned port and fills the slot when the bound address is an IP
address, and fails with the unsupported-address error when it is not. -/
theorem claim_c6_bind_and_port :
    (∀ a : SocketAddr, listen_addr_port (.IP a) = .ok a.port)
    ∧ (∀ path, listen_addr_port (.Unix path)
        = .error "Unsupported listener address")
    ∧ (∀ st env e, st.poisoned = false → st.receiver = none →
        env.bind = .error e →
        start_oauth_listener st env = (st, .error e))
    ∧ (∀ st env a, st.poisoned = false → st.receiver = none →
        env.bind = .ok (.IP a) →
        start_oauth_listener st env
          = ({ st with receiver := some () }, .ok a.port))
    ∧ (∀ st env p, st.poisoned = false → st.receiver = none →
        env.bind = .ok (.Unix p) →
        start_oauth_listener st env
          = (st, .error "Unsupported listener address")) := by
  refine ⟨fun a => rfl, fun path => rfl, ?_, ?_, ?_⟩ <;>
    intro st env x hp hr henv <;>
    simp [start_oauth_listener, hp, hr, henv, listen_addr_port]

/-- Witness for C6: the port of a concrete IPv4 and IPv6 address, the
unsupported-address error for a unix socket, and the three start outcomes. -/
theorem claim_c6_bind_and_port_witness :
    listen_addr_port (.IP (.v4 127 0 0 1 8080)) = .ok 8080
    ∧ listen_addr_port (.IP (.v6 [0, 0, 0, 0, 0, 0, 0, 1] 9090)) = .ok 9090
    ∧ listen_addr_port (.Unix [47, 116, 109, 112])
        = .error "Unsupported listener address"
    ∧ start_oauth_listener ⟨false, none⟩ ⟨.error "bind failed"⟩
        = (⟨false, none⟩, .error "bind failed")
    ∧ start_oauth_listener ⟨false, none⟩ ⟨.ok (.IP (.v4 127 0 0 1 8080))⟩
        = (⟨false, some ()⟩, .ok 8080)
    ∧ start_oauth_listener ⟨false, none⟩ ⟨.ok (.Unix [47, 116, 109, 112])⟩
        = (⟨false, none⟩, .error "Unsupported listener address") :=
  ⟨claim_c6_bind_and_port.1 (.v4 127 0 0 1 8080),
    claim_c6_bind_and_port.1 (.v6 [0, 0, 0, 0, 0, 0, 0, 1] 9090),
    claim_c6_bind_and_port.2.1 [47, 116, 109, 112],
    claim_c6_bind_and_port.2.2.1 ⟨false, none⟩ _ _ rfl rfl rfl,
    claim_c6_bind_and_port.2.2.2.1 ⟨false, none⟩ _ _ rfl rfl rfl,
    claim_c6_bind_and_port.2.2.2.2 ⟨false, none⟩ _ _ rfl rfl rfl⟩

/-- Claim C7: in the accept loop, every request whose URL yields no code is
answered with the fixed waiting body and the loop continues; the first
request whose URL yields a code is answered with the fixed
authorization-complete body, its code is the one sent over the channel, and
the loop stops — later requests are never processed, so at most one code is
delivered per listener lifetime. -/
theorem claim_c7_server_loop :
    (∀ reqs, (∀ u ∈ reqs, extract_code u = none) →
      serverLoop reqs = (reqs.map fun _ => waitingBody, none))
    ∧ (∀ pre url post code, (∀ u ∈ pre, extract_code u = none) →
      extract_code url = some code →
      serverLoop (pre ++ url :: post)
        = ((pre.map fun _ => waitingBody) ++ [completeBody], some code)) := by
  constructor
  · intro reqs
    induction reqs with
    | nil => intro _; rfl
    | cons u reqs ih =>
      intro h
      have hu := h u (List.mem_cons_self u reqs)
      have h2 := ih fun v hv => h v (List.mem_cons_of_mem u hv)
      simp [serverLoop, hu, h2]
  · intro pre url post code hpre hurl
    induction pre with
    | nil => simp [serverLoop, hurl]
    | cons u pre ih =>
      have hu := hpre u (List.mem_cons_self u pre)
      have h2 := ih fun v hv => hpre v (List.mem_cons_of_mem u hv)
      simp [serverLoop, hu]
      exact ⟨by simp [h2], by simp [h2]⟩

/-- Witness for C7: a code-less request, then `/cb?code=x`, then another
request: the bodies are waiting then complete, the code `x` is sent, and
the third request is never answered. -/
theorem claim_c7_server_loop_witness :
    serverLoop [[47, 99, 98],
        [47, 99, 98, 63, 99, 111, 100, 101, 61, 120], [47]]
      = ([waitingBody, completeBody], some [120])
    ∧ serverLoop [[47, 99, 98], [47]]
      = ([waitingBody, waitingBody], none) := by
  constructor
  · have h := claim_c7_server_loop.2 [[47, 99, 98]]
      [47, 99, 98, 63, 99, 111, 100, 101, 61, 120] [[47]] [120]
      (by decide) (by decide)
    simpa using h
  · have h := claim_c7_server_loop.1 [[47, 99, 98], [47]] (by decide)
    simpa using h

/-- Claim C8 as stated is false: in `start_oauth_listener` the mutex guard
is bound at the top of the function and dropped only at return, so the lock
is still held while `Server::http` binds the loopback socket.  The claim
holds for `await_oauth_code`, whose guard is scoped to an inner block that
ends before the timeout race. -/
theorem claim_c8_counterexample :
    ¬ (lockAvoidsNetwork startEvents ∧ lockAvoidsNetwork awaitEvents) := by
  decide

/-- Claim C8, amended: in `await_oauth_code` the lock is held only around
the slot take and never across the channel/timeout wait; in
`start_oauth_listener` the lock is held across the socket bind (though
never across accepting connections, which happen on the spawned thread, nor
across any timeout wait). -/
theorem claim_c8_amended :
    lockAvoidsNetwork awaitEvents
    ∧ Event.bindSocket ∈ eventsUnderLock startEvents false
    ∧ Event.acceptConn ∉ eventsUnderLock startEvents false
    ∧ Event.chanTimeoutWait ∉ eventsUnderLock startEvents false
    ∧ eventsUnderLock awaitEvents false = [Event.slotTake] := by
  decide

end DayLight
